import Mathlib

/-!
Verification of the paperback page-layout / block-encoding core
(`initPrinting.c`, `printNextPage.c`, `drawBlock.c`, `fillBlock.c`)
against its natural-language specification.

The C code is shallowly embedded: pure computations become Lean
functions on `ℕ` (with explicit truncation where the C code casts),
the stateful stepper becomes explicit outcome records, and the
external collaborators (CRC-16, Reed-Solomon encoder, `malloc`,
`fwrite`) become explicit parameters or oracle inputs.

`NDATA` (the number of useful data bytes per block) is declared in a
header that is not part of the four source files; every definition
takes it as an explicit parameter, constrained only by the record
layout the specification gives.
-/

namespace Paperback

/-- `NDOT = 32`: logical dots per block edge. -/
def NDOT : ℕ := 32

/-- The error reports the core can emit (`Reporterror` messages),
one constructor per distinct message string in the source. -/
inductive PBError where
  /-- `Printable area is too small, reduce borders or block size` -/
  | tooSmall
  /-- `Outbmp unspecified, can not creat BMP` -/
  | noOutput
  /-- `Low memory, cant create bitmap` -/
  | lowMemory
  /-- `Unable to create bitmap file` -/
  | cantCreateFile
  /-- `Unable to save bitmap` -/
  | cantSaveBitmap
deriving DecidableEq

/-- Process-wide configuration read by `Initializeprinting`
(`pb_resx`, `pb_resy`, `pb_dpi`, `pb_dotpercent`, the job's
redundancy factor and flags).  `outbmpNonempty` models the test
`print->outbmp[0] != 0`; `extratop`/`extrabottom` are the
caller-reserved header/footer pixels. -/
structure PrintConfig where
  pb_resx : ℕ
  pb_resy : ℕ
  pb_dpi : ℕ
  pb_dotpercent : ℕ
  redundancy : ℕ
  printborder : Bool
  outbmpNonempty : Bool
  extratop : ℕ
  extrabottom : ℕ
deriving DecidableEq

/-- Horizontal printer resolution: default 300 when either
`pb_resx` or `pb_resy` is zero (initPrinting.c lines 38-42). -/
def ppixOf (c : PrintConfig) : ℕ :=
  if c.pb_resx = 0 ∨ c.pb_resy = 0 then 300 else c.pb_resx

/-- Vertical printer resolution (initPrinting.c lines 38-42). -/
def ppiyOf (c : PrintConfig) : ℕ :=
  if c.pb_resx = 0 ∨ c.pb_resy = 0 then 300 else c.pb_resy

/-- Dot pitch `dx = max(ppix/pb_dpi, 2)` (initPrinting.c line 70). -/
def dxOf (c : PrintConfig) : ℕ := max (ppixOf c / c.pb_dpi) 2

/-- Dot pitch `dy = max(ppiy/pb_dpi, 2)` (initPrinting.c line 72). -/
def dyOf (c : PrintConfig) : ℕ := max (ppiyOf c / c.pb_dpi) 2

/-- Dot size `px = max(dx*pb_dotpercent/100, 1)` (line 71). -/
def pxOf (c : PrintConfig) : ℕ := max (dxOf c * c.pb_dotpercent / 100) 1

/-- Dot size `py = max(dy*pb_dotpercent/100, 1)` (line 73). -/
def pyOf (c : PrintConfig) : ℕ := max (dyOf c * c.pb_dotpercent / 100) 1

/-- Width of the border around the data grid
(initPrinting.c lines 75-80). -/
def borderOf (c : PrintConfig) : ℕ :=
  if c.printborder then dxOf c * 16
  else if c.outbmpNonempty then 25
  else 0

/-- Printable width: A4 page width `ppix*8270/1000` minus the left
(`ppix`) and right (`ppix/2`) margins (initPrinting.c lines 45, 57-58,
63-64).  The C `int` subtraction cannot go negative here because
`8270/1000 > 3/2`, so `ℕ` subtraction is exact. -/
def areaWidthOf (c : PrintConfig) : ℕ :=
  ppixOf c * 8270 / 1000 - (ppixOf c + ppixOf c / 2)

/-- Printable height: A4 page height `ppiy*11690/1000` minus top and
bottom margins (`ppiy/2` each) and the caller-reserved extra space
(initPrinting.c lines 46, 59-60, 65-66).  When the C `int` value
would be negative, `ℕ` truncates to 0; in both semantics the planner
then computes `ny < 3` and fails, so the outcome is unchanged. -/
def areaHeightOf (c : PrintConfig) : ℕ :=
  ppiyOf c * 11690 / 1000 - (ppiyOf c / 2 + ppiyOf c / 2 + c.extratop + c.extrabottom)

/-- Cells per row `nx = (width - px - 2*border)/(NDOT*dx + 3*dx)`
(initPrinting.c line 85).  A negative C numerator becomes 0 here;
in both semantics `nx < redundancy+1` then fails the feasibility
check, so the outcome is unchanged. -/
def nxOf (c : PrintConfig) : ℕ :=
  (areaWidthOf c - pxOf c - 2 * borderOf c) / (NDOT * dxOf c + 3 * dxOf c)

/-- Cells per column `ny = (height - py - 2*border)/(NDOT*dy + 3*dy)`
(initPrinting.c line 86). -/
def nyOf (c : PrintConfig) : ℕ :=
  (areaHeightOf c - pyOf c - 2 * borderOf c) / (NDOT * dyOf c + 3 * dyOf c)

/-- Final bitmap width `(nx*(NDOT+3)*dx + px + 2*border + 3) & 0xFFFFFFFC`
(initPrinting.c line 92); the mask clears the two low bits, i.e. rounds
down to a multiple of 4, written here as `/ 4 * 4`. -/
def bitmapWidth (nx dx px border : ℕ) : ℕ :=
  (nx * (NDOT + 3) * dx + px + 2 * border + 3) / 4 * 4

/-- Final bitmap height `ny*(NDOT+3)*dy + py + 2*border`
(initPrinting.c line 93; recomputed with the shrunk `ny` in
printNextPage.c line 48). -/
def bitmapHeight (ny dy py border : ℕ) : ℕ :=
  ny * (NDOT + 3) * dy + py + 2 * border

/-- Per-page useful byte capacity
`((nx*ny - redundancy - 2)/(redundancy+1)) * redundancy * NDATA`
(initPrinting.c lines 131-132).  On the success path the feasibility
check guarantees `nx*ny ≥ 2*redundancy+2`, so `ℕ` subtraction is
exact. -/
def pagesizeOf (NDATA nx ny redundancy : ℕ) : ℕ :=
  (nx * ny - redundancy - 2) / (redundancy + 1) * redundancy * NDATA

/-- The geometry a successful `Initializeprinting` stores back into
the print job (initPrinting.c lines 131-142). -/
structure Geometry where
  nx : ℕ
  ny : ℕ
  dx : ℕ
  dy : ℕ
  px : ℕ
  py : ℕ
  border : ℕ
  width : ℕ
  height : ℕ
  pagesize : ℕ
  /-- `print->superdata.pagesize` (initPrinting.c line 133). -/
  superPagesize : ℕ
deriving DecidableEq

/-- Observable outcome of one `Initializeprinting` call:
which error (if any) was passed to `Reporterror`, whether
`Stopprinting` ran (the terminal transition that also releases the
bitmap), whether the bitmap allocation is live on return, whether
`print->step` advanced, and the stored geometry. -/
structure InitOutcome where
  reported : Option PBError
  stopped : Bool
  allocated : Bool
  stepAdvanced : Bool
  geom : Option Geometry
deriving DecidableEq

/-- `Initializeprinting` (initPrinting.c lines 34-145): computes the
page geometry, runs the feasibility check, checks the output path,
allocates the bitmap (`mallocFails` is the allocator oracle) and on
success stores the geometry and advances the step.  The branch order
is the source's: feasibility (lines 87-90), then `outbmp[0]` (lines
115-119), then `malloc` (lines 121-125).  Note that the malloc
failure path (lines 122-125) reports the error but does not call
`Stopprinting`. -/
def Initializeprinting (NDATA : ℕ) (c : PrintConfig) (mallocFails : Bool) : InitOutcome :=
  let nx := nxOf c
  let ny := nyOf c
  if nx < c.redundancy + 1 ∨ ny < 3 ∨ nx * ny < 2 * c.redundancy + 2 then
    ⟨some PBError.tooSmall, true, false, false, none⟩
  else if ¬ c.outbmpNonempty then
    ⟨some PBError.noOutput, true, false, false, none⟩
  else if mallocFails then
    ⟨some PBError.lowMemory, false, false, false, none⟩
  else
    let pagesize := pagesizeOf NDATA nx ny c.redundancy
    ⟨none, false, true, true,
      some ⟨nx, ny, dxOf c, dyOf c, pxOf c, pyOf c, borderOf c,
            bitmapWidth nx (dxOf c) (pxOf c) (borderOf c),
            bitmapHeight ny (dyOf c) (pyOf c) (borderOf c),
            pagesize, pagesize⟩⟩

/-! ## Page assembly (`printNextPage.c`) -/

/-- Number of pure data blocks on the page:
`n = (l + NDATA - 1)/NDATA` (printNextPage.c line 42). -/
def ndataBlocksOf (NDATA l : ℕ) : ℕ := (l + NDATA - 1) / NDATA

/-- Number of groups (length of a string):
`nstring = (n + redundancy - 1)/redundancy` (printNextPage.c
lines 43-44). -/
def nstringOf (NDATA redundancy l : ℕ) : ℕ :=
  (ndataBlocksOf NDATA l + redundancy - 1) / redundancy

/-- Number of rows kept on the page:
`max(ceil(((nstring+1)*(redundancy+1)+1)/nx), 3)` (printNextPage.c
lines 45-46). -/
def rowsOf (nx redundancy nstring : ℕ) : ℕ :=
  max (((nstring + 1) * (redundancy + 1) + 1 + nx - 1) / nx) 3

/-- The vertical cell count actually used on this page:
`if (ny > n) ny = n` (printNextPage.c line 47). -/
def pageNy (ny rows : ℕ) : ℕ := if rows < ny then rows else ny

/-- The column-skew rotation `(nx/(redundancy+1)*j - k%nx + nx) % nx`
applied to a string whose unrotated first cell is `k`
(printNextPage.c lines 100 and 134).  In C the summand `+nx` keeps
the `int` value positive, so the C `%` agrees with `ℕ` `%`; since
`k % nx < nx` the `ℕ` subtraction is also exact. -/
def rotOf (nx redundancy j k : ℕ) : ℕ :=
  (nx / (redundancy + 1) * j + nx - k % nx) % nx

/-- Cell index of the `j`-th superblock copy (one per string),
printNextPage.c lines 97-103: `k = j*(nstring+1)`, shifted by the
column-skew rotation when `nstring+1 ≥ nx`. -/
def superCell (nx redundancy nstring j : ℕ) : ℕ :=
  let k := j * (nstring + 1)
  if nstring + 1 ≥ nx then k + rotOf nx redundancy j k else k

/-- Cell index of the `j`-th data block of group `i`
(printNextPage.c lines 127-135): `k = j*(nstring+1)`, then `k += i+1`
when `nstring+1 < nx`, else `k += (i+1+rot) % (nstring+1)` with the
column-skew rotation `rot`. -/
def groupCell (nx redundancy nstring j i : ℕ) : ℕ :=
  let k := j * (nstring + 1)
  if nstring + 1 < nx then k + (i + 1)
  else k + (i + 1 + rotOf nx redundancy j k) % (nstring + 1)

/-- Cell index of the parity (redundancy) block of group `i`
(printNextPage.c lines 140-146), the same placement formula with
`j = redundancy`. -/
def parityCell (nx redundancy nstring i : ℕ) : ℕ :=
  let k := redundancy * (nstring + 1)
  if nstring + 1 < nx then k + (i + 1)
  else k + (i + 1 + rotOf nx redundancy redundancy k) % (nstring + 1)

/-- All cell indices passed to `Drawblock` while emitting one page, in
source order (printNextPage.c lines 97-155): the `redundancy+1`
superblock header copies, then per group the `redundancy` data blocks
followed by the parity block, then the tail cells
`[(nstring+1)*(redundancy+1), nx*ny)` filled with superblock
copies. -/
def pageCells (nx ny redundancy nstring : ℕ) : List ℕ :=
  (List.range (redundancy + 1)).map (superCell nx redundancy nstring)
  ++ (List.range nstring).flatMap (fun i =>
       (List.range redundancy).map (fun j => groupCell nx redundancy nstring j i)
       ++ [parityCell nx redundancy nstring i])
  ++ List.range' ((nstring + 1) * (redundancy + 1))
       (nx * ny - (nstring + 1) * (redundancy + 1))

/-- The cell indices of one group (its `redundancy` data blocks and
its parity block), in drawing order. -/
def groupCells (nx redundancy nstring i : ℕ) : List ℕ :=
  (List.range redundancy).map (fun j => groupCell nx redundancy nstring j i)
  ++ [parityCell nx redundancy nstring i]

/-! ## Data blocks and the parity accumulator (`printNextPage.c` lines 105-148) -/

/-- Bytewise XOR of two byte lists (the loop
`for (l=0; l<NDATA; l++) cksum.data[l] ^= block.data[l]`,
printNextPage.c line 124). -/
def xorBytes (a b : List ℕ) : List ℕ := List.zipWith (fun x y => x ^^^ y) a b

/-- The `data` field of the data block built at byte offset `offset`
(printNextPage.c lines 112-122): copy `min(size-offset, NDATA)` bytes
from the buffer when `offset < size`, then zero-fill to `NDATA`. -/
def blockData (NDATA : ℕ) (buf : List ℕ) (size offset : ℕ) : List ℕ :=
  if offset < size then
    let l := min (size - offset) NDATA
    ((buf.drop offset).take l) ++ List.replicate (NDATA - l) 0
  else List.replicate NDATA 0

/-- The `data` field of the parity block of the group that starts at
byte offset `offset` (printNextPage.c lines 106-124): the accumulator
starts as `NDATA` bytes of `0xFF` (`memset(cksum.data,0xFF,NDATA)`)
and each of the group's `redundancy` data blocks is XORed in. -/
def parityData (NDATA redundancy : ℕ) (buf : List ℕ) (size offset : ℕ) : List ℕ :=
  (List.range redundancy).foldl
    (fun cksum j => xorBytes cksum (blockData NDATA buf size (offset + j * NDATA)))
    (List.replicate NDATA 0xFF)

/-- Modelled from the spec: the plain bytewise XOR of the group's
`redundancy` data blocks (missing members all-zero), starting from an
all-zero accumulator — the value the specification asserts the parity
block's `data` equals. -/
def specGroupXor (NDATA redundancy : ℕ) (buf : List ℕ) (size offset : ℕ) : List ℕ :=
  (List.range redundancy).foldl
    (fun acc j => xorBytes acc (blockData NDATA buf size (offset + j * NDATA)))
    (List.replicate NDATA 0)

/-! ## Block finishing and dot emission (`drawBlock.c`) -/

/-- The CRC step of `Drawblock` (drawBlock.c line 16):
`block->crc = (ushort)(Crc16((uchar*)block, NDATA+4) ^ 0x55AA)`.
`crc16` is the external CRC-16 routine (out of scope, passed as a
parameter); the `ushort` cast is the `% 65536`.  The two CRC bytes
are stored little-endian at offsets `NDATA+4` and `NDATA+5` of the
record. -/
def recordWithCrc (NDATA : ℕ) (crc16 : List ℕ → ℕ) (rec : List ℕ) : List ℕ :=
  let c := (crc16 (rec.take (NDATA + 4)) ^^^ 0x55AA) % 65536
  (rec.set (NDATA + 4) (c % 256)).set (NDATA + 5) (c / 256)

/-- The ECC step of `Drawblock` (drawBlock.c line 18):
`Encode8((uchar*)block, block->ecc, 127)`.  Modelled from the spec:
`Encode8` is the external byte encoder, producing the ECC tail over
the first `NDATA+6` bytes and filling the 128-byte record; it is
passed as the parameter `encode8` and overwrites only the bytes from
offset `NDATA+6` on. -/
def recordWithEcc (NDATA : ℕ) (encode8 : List ℕ → List ℕ) (rec : List ℕ) : List ℕ :=
  rec.take (NDATA + 6) ++ encode8 (rec.take (NDATA + 6))

/-- The record `Drawblock` actually stamps onto the page: the input
record with the CRC field filled (drawBlock.c line 16) and then the
ECC tail appended (line 18). -/
def finishRecord (NDATA : ℕ) (crc16 : List ℕ → ℕ) (encode8 : List ℕ → List ℕ)
    (rec : List ℕ) : List ℕ :=
  recordWithEcc NDATA encode8 (recordWithCrc NDATA crc16 rec)

/-- The XOR visibility mask of `Drawblock` (drawBlock.c lines 23-26):
even words are XORed with `0x55555555`, odd words with
`0xAAAAAAAA`. -/
def maskWord (j w : ℕ) : ℕ :=
  if j % 2 = 0 then w ^^^ 0x55555555 else w ^^^ 0xAAAAAAAA

/-- Flat bitmap offsets (in bytes, relative to the start of the
bitmap) written by `Drawblock` for cell `index` (drawBlock.c lines
11-40), as the C pointer arithmetic computes them: the base pointer
is `(height-y-1)*width + x` with
`x = (index%nx)*(NDOT+3)*dx + 2*dx + border` and
`y = (index/nx)*(NDOT+3)*dy + 2*dy + border`; word `j` subtracts
`j*dy*width`, bit `i` adds `i*dx`, and a set bit paints the `py×px`
rectangle at offsets `-m*width + n`.  `word j` is the `j`-th 32-bit
little-endian word of the record; the offsets are `ℤ` because the C
expression mixes additions and subtractions. -/
def drawblockAddrs (index nx width height border dx dy px py : ℕ)
    (word : ℕ → ℕ) : List ℤ :=
  let x0 : ℕ := index % nx * (NDOT + 3) * dx + 2 * dx + border
  let y0 : ℕ := index / nx * (NDOT + 3) * dy + 2 * dy + border
  let base : ℤ := ((height : ℤ) - (y0 : ℤ) - 1) * (width : ℤ) + (x0 : ℤ)
  (List.range 32).flatMap (fun j =>
    (List.range 32).flatMap (fun i =>
      if (maskWord j (word j) >>> i) &&& 1 = 1 then
        (List.range py).flatMap (fun m =>
          (List.range px).map (fun (n : ℕ) =>
            base - (j : ℤ) * (dy : ℤ) * (width : ℤ) + (i : ℤ) * (dx : ℤ)
              - (m : ℤ) * (width : ℤ) + (n : ℤ)))
      else []))

/-! ## Saving the page bitmap (`printNextPage.c` lines 157-215) -/

/-- The I/O oracle for one `Printnextpage` save: whether `fopen`
succeeds and whether each of the three `fwrite` calls (file header,
info header + palette, pixel data) returns its full count. -/
structure SaveIO where
  openOk : Bool
  headerWriteOk : Bool
  infoWriteOk : Bool
  bitsWriteOk : Bool
deriving DecidableEq

/-- Observable outcome of the save step of `Printnextpage`: the
reported error (if any), whether `Stopprinting` ran, whether the file
handle was closed, and whether `print->frompage` advanced. -/
structure PageOutcome where
  reported : Option PBError
  stopped : Bool
  fileClosed : Bool
  pageAdvanced : Bool
deriving DecidableEq

/-- The save step of `Printnextpage` (printNextPage.c lines 157-215),
with the drawing already done.  Control flow follows the source: a
failed `fopen` reports and stops (lines 169-173); `success` is
cleared by a short header write (lines 183-185), but the entire
info-header / pixel-data / `fclose` / error-check region (lines
187-212) is guarded by `if (success)`, so a short header write skips
it — no report, no stop, no `fclose` — and falls through to
`print->frompage++` (line 214). -/
def printnextpageSave (io : SaveIO) : PageOutcome :=
  if ¬ io.openOk then
    ⟨some PBError.cantCreateFile, true, false, false⟩
  else if ¬ io.headerWriteOk then
    -- success = 0; the whole `if (success)` block is skipped.
    ⟨none, false, false, true⟩
  else if ¬ io.infoWriteOk then
    -- inner `if (success)` skipped, fclose, then the success==0 check.
    ⟨some PBError.cantSaveBitmap, true, true, false⟩
  else if ¬ io.bitsWriteOk then
    ⟨some PBError.cantSaveBitmap, true, true, false⟩
  else
    ⟨none, false, true, true⟩

/-! ## Superblock name fill (`initPrinting.c` lines 29-31) -/

/-- `strncpy(dst, src, n)` where `src` is the bytes of a C string
(terminator not included): copies up to `n` bytes of `src` and
zero-fills the remainder of the `n`-byte destination. -/
def strncpyBytes (n : ℕ) (src : List ℕ) : List ℕ :=
  src.take n ++ List.replicate (n - src.length) 0

/-- The superblock name fill (initPrinting.c lines 29-31):
`strncpy(print->superdata.name, fil, dataSize)` followed by
`print->superdata.name[dataSize] = '\0'`.  Modelled from the spec:
the superblock record layout (`t_superdata`) is declared in a header
outside the four source files; `record` is its byte image, the `name`
field is the `w`-byte region starting at `nameOff`
(`w = sizeof(print->superdata.name)`), and the byte at
`nameOff + w` is the first byte of the following binary field.  The
final store writes index `nameOff + w` — one past the `name`
region. -/
def fillName (nameOff w : ℕ) (record fil : List ℕ) : List ℕ :=
  (record.take nameOff ++ strncpyBytes w fil ++ record.drop (nameOff + w)).set
    (nameOff + w) 0

/-- A concrete A4/300dpi configuration on which `Initializeprinting`
succeeds: `pb_dpi = 67`, `pb_dotpercent = 70`, `redundancy = 1`,
border printing on, output path set.  It yields `nx = 13`,
`ny = 21`. -/
def cfgA4 : PrintConfig := ⟨300, 300, 67, 70, 1, true, true, 0, 0⟩

/-! ## Theorems -/

theorem xorBytes_assoc (a b c : List ℕ) :
    xorBytes (xorBytes a b) c = xorBytes a (xorBytes b c) := by
  induction a generalizing b c with
  | nil => simp [xorBytes]
  | cons x a ih =>
    cases b with
    | nil => simp [xorBytes]
    | cons y b =>
      cases c with
      | nil => simp [xorBytes]
      | cons z c =>
        have h := ih b c
        simp only [xorBytes] at h
        simp [xorBytes, Nat.xor_assoc, h]

theorem foldl_xorBytes_left (bs : List (List ℕ)) (pre init : List ℕ) :
    bs.foldl xorBytes (xorBytes pre init) = xorBytes pre (bs.foldl xorBytes init) := by
  induction bs generalizing init with
  | nil => rfl
  | cons b bs ih => simp only [List.foldl_cons, xorBytes_assoc, ih]

theorem xorBytes_replicate_zero (n a : ℕ) :
    xorBytes (List.replicate n a) (List.replicate n 0) = List.replicate n a := by
  induction n with
  | zero => rfl
  | succ n ih =>
    have h := ih
    simp only [xorBytes] at h
    simp [xorBytes, List.replicate_succ, h]

/-- C1 (counterexample): with `NDATA = 2`, `redundancy = 1`, a
two-byte all-zero buffer and offset 0, the group's single data block
is `[0, 0]`, whose XOR is `[0, 0]`, but the parity block the code
builds carries `[255, 255]` — the parity `data` does not equal the
XOR of the group members' `data`. -/
theorem c1_counterexample :
    parityData 2 1 [0, 0] 2 0 ≠ specGroupXor 2 1 [0, 0] 2 0 ∧
    parityData 2 1 [0, 0] 2 0 = [255, 255] ∧
    specGroupXor 2 1 [0, 0] 2 0 = [0, 0] := by decide

/-- C1 (amended): on every emitted page, for every group of
`redundancy` data blocks, the parity block's `data` equals the
bytewise COMPLEMENT of the XOR of the group members' `data` fields
(members past the end of the buffer all-zero), i.e. `0xFF` XOR each
byte of the group XOR — because the accumulator is initialised to
`0xFF`, not `0` (printNextPage.c line 108). -/
theorem c1_parity_is_complement_of_group_xor
    (NDATA redundancy : ℕ) (buf : List ℕ) (size offset : ℕ) :
    parityData NDATA redundancy buf size offset =
      xorBytes (List.replicate NDATA 0xFF)
        (specGroupXor NDATA redundancy buf size offset) := by
  unfold parityData specGroupXor
  have h1 :
      (List.range redundancy).foldl
        (fun cksum j => xorBytes cksum (blockData NDATA buf size (offset + j * NDATA)))
        (List.replicate NDATA 0xFF) =
      ((List.range redundancy).map
        (fun j => blockData NDATA buf size (offset + j * NDATA))).foldl
        xorBytes (List.replicate NDATA 0xFF) := by
    rw [List.foldl_map]
  have h2 :
      (List.range redundancy).foldl
        (fun acc j => xorBytes acc (blockData NDATA buf size (offset + j * NDATA)))
        (List.replicate NDATA 0) =
      ((List.range redundancy).map
        (fun j => blockData NDATA buf size (offset + j * NDATA))).foldl
        xorBytes (List.replicate NDATA 0) := by
    rw [List.foldl_map]
  rw [h1, h2, ← xorBytes_replicate_zero NDATA 0xFF, foldl_xorBytes_left,
    xorBytes_replicate_zero]

theorem parityCell_eq_groupCell (nx redundancy nstring i : ℕ) :
    parityCell nx redundancy nstring i = groupCell nx redundancy nstring redundancy i := rfl

theorem groupCell_mod_of_dvd (nx redundancy nstring j i : ℕ)
    (hge : nx ≤ nstring + 1) (hdvd : nx ∣ nstring + 1) :
    groupCell nx redundancy nstring j i % nx =
      (i + 1 + nx / (redundancy + 1) * j) % nx := by
  have hk : nx ∣ j * (nstring + 1) := Dvd.dvd.mul_left hdvd j
  have hk0 : j * (nstring + 1) % nx = 0 := Nat.mod_eq_zero_of_dvd hk
  have hrot : rotOf nx redundancy j (j * (nstring + 1)) =
      nx / (redundancy + 1) * j % nx := by
    unfold rotOf
    rw [hk0, Nat.sub_zero, Nat.add_mod_right]
  have hbranch : ¬ (nstring + 1 < nx) := by omega
  unfold groupCell
  rw [if_neg hbranch, hrot]
  have e1 : j * (nstring + 1) ≡ 0 [MOD nx] := (Nat.modEq_zero_iff_dvd).mpr hk
  have e2 : (i + 1 + nx / (redundancy + 1) * j % nx) % (nstring + 1) ≡
      i + 1 + nx / (redundancy + 1) * j % nx [MOD nx] :=
    Nat.mod_mod_of_dvd _ hdvd
  have e3 : (nx / (redundancy + 1) * j % nx : ℕ) ≡
      nx / (redundancy + 1) * j [MOD nx] := Nat.mod_modEq _ _
  have e4 : i + 1 + nx / (redundancy + 1) * j % nx ≡
      i + 1 + nx / (redundancy + 1) * j [MOD nx] := Nat.ModEq.add_left _ e3
  have : j * (nstring + 1) + (i + 1 + nx / (redundancy + 1) * j % nx) % (nstring + 1) ≡
      0 + (i + 1 + nx / (redundancy + 1) * j) [MOD nx] :=
    Nat.ModEq.add e1 (e2.trans e4)
  simpa using this

/-- C3 (counterexample): with `nx = 3`, `redundancy = 2`,
`nstring = 4` (so `nstring + 1 = 5 ≥ nx`), group `i = 2` is placed at
cells `[3, 5, 14]`, and the blocks at cells 5 and 14 both lie in
bitmap column `2 = 5 % 3 = 14 % 3` — two blocks of the same group in
the same column even though `nstring + 1 ≥ nx`.  The configuration is
reachable: the feasibility check passes for `nx = 3`, `ny = 6`,
`redundancy = 2`, and a page carrying `l = 720` bytes with
`NDATA = 90` yields exactly `nstring = 4` with
`l ≤ pagesize = 720`. -/
theorem c3_counterexample :
    3 ≤ 4 + 1 ∧
    ¬ (groupCells 3 2 4 2).Pairwise (fun a b => a % 3 ≠ b % 3) ∧
    groupCells 3 2 4 2 = [3, 5, 14] ∧
    2 + 1 ≤ 3 ∧ 3 ≤ 6 ∧ 2 * 2 + 2 ≤ 3 * 6 ∧
    nstringOf 90 2 720 = 4 ∧ 720 ≤ pagesizeOf 90 3 6 2 := by decide

/-- C3 (amended): whenever `nstring + 1 ≥ nx` AND `nx` divides
`nstring + 1`, no two blocks of the same group (the `redundancy` data
blocks of a string together with that string's parity block) are
placed at cell indices lying in the same bitmap column: their cell
indices are pairwise distinct modulo `nx`.  (Without the divisibility
condition the wrap-around of `(i + 1 + rot) % (nstring + 1)` can
cancel the skew, see the counterexample.) -/
theorem c3_group_columns_distinct (nx redundancy nstring i : ℕ)
    (hnx : redundancy + 1 ≤ nx) (hge : nx ≤ nstring + 1)
    (hdvd : nx ∣ nstring + 1) :
    (groupCells nx redundancy nstring i).Pairwise (fun a b => a % nx ≠ b % nx) := by
  have hnx0 : 0 < nx := by omega
  have hq : 1 ≤ nx / (redundancy + 1) := (Nat.one_le_div_iff (by omega)).mpr hnx
  have hqr : nx / (redundancy + 1) * (redundancy + 1) ≤ nx :=
    Nat.div_mul_le_self nx (redundancy + 1)
  -- Distinct strings land in distinct columns.
  have key : ∀ j1 j2 : ℕ, j1 < j2 → j2 ≤ redundancy →
      groupCell nx redundancy nstring j1 i % nx ≠
      groupCell nx redundancy nstring j2 i % nx := by
    intro j1 j2 hlt hle heq
    rw [groupCell_mod_of_dvd nx redundancy nstring j1 i hge hdvd,
        groupCell_mod_of_dvd nx redundancy nstring j2 i hge hdvd] at heq
    have hmod : i + 1 + nx / (redundancy + 1) * j1 ≡
        i + 1 + nx / (redundancy + 1) * j2 [MOD nx] := heq
    have hcan : nx / (redundancy + 1) * j1 ≡
        nx / (redundancy + 1) * j2 [MOD nx] :=
      Nat.ModEq.add_left_cancel' (i + 1) hmod
    have hle' : nx / (redundancy + 1) * j1 ≤ nx / (redundancy + 1) * j2 :=
      Nat.mul_le_mul_left _ (by omega)
    have hdvd2 : nx ∣ nx / (redundancy + 1) * j2 - nx / (redundancy + 1) * j1 :=
      (Nat.modEq_iff_dvd' hle').mp hcan
    have hsplit : nx / (redundancy + 1) * j2 =
        nx / (redundancy + 1) * j1 + nx / (redundancy + 1) * (j2 - j1) := by
      rw [← Nat.mul_add]
      congr 1
      omega
    have hlow : nx / (redundancy + 1) * 1 ≤ nx / (redundancy + 1) * (j2 - j1) :=
      Nat.mul_le_mul_left _ (by omega)
    have hhigh : nx / (redundancy + 1) * (j2 - j1) ≤
        nx / (redundancy + 1) * redundancy :=
      Nat.mul_le_mul_left _ (by omega)
    have hmul : nx / (redundancy + 1) * (redundancy + 1) =
        nx / (redundancy + 1) * redundancy + nx / (redundancy + 1) := Nat.mul_succ _ _
    have hpos : 0 < nx / (redundancy + 1) * (j2 - j1) := by omega
    have hsub : nx / (redundancy + 1) * j2 - nx / (redundancy + 1) * j1 =
        nx / (redundancy + 1) * (j2 - j1) := by omega
    rw [hsub] at hdvd2
    have hbig : nx ≤ nx / (redundancy + 1) * (j2 - j1) :=
      Nat.le_of_dvd hpos hdvd2
    omega
  unfold groupCells
  rw [List.pairwise_append]
  refine ⟨?_, by simp, ?_⟩
  · rw [List.pairwise_map]
    have := List.pairwise_lt_range redundancy
    refine this.imp_of_mem ?_
    intro a b ha hb hab
    exact key a b hab (by exact Nat.le_of_lt (List.mem_range.mp hb) |>.trans (by omega))
  · intro a ha b hb
    simp only [List.mem_map, List.mem_range] at ha
    simp only [List.mem_singleton] at hb
    obtain ⟨j, hj, rfl⟩ := ha
    subst hb
    rw [parityCell_eq_groupCell]
    exact key j redundancy hj le_rfl

/-- C3 witness: concrete instance of the amended theorem at `nx = 3`,
`redundancy = 2`, `nstring = 2` (`nstring + 1 = 3`, divisible by
`nx`), group `i = 0`. -/
theorem c3_group_columns_distinct_witness :
    (groupCells 3 2 2 0).Pairwise (fun a b => a % 3 ≠ b % 3) :=
  c3_group_columns_distinct 3 2 2 0 (by decide) (by decide) (by decide)

theorem nstring_le_of_le_pagesize (NDATA redundancy nx ny l : ℕ)
    (hN : 1 ≤ NDATA) (hr : 1 ≤ redundancy)
    (hl2 : l ≤ pagesizeOf NDATA nx ny redundancy)
    (hfeas : 2 * redundancy + 2 ≤ nx * ny) :
    (nstringOf NDATA redundancy l + 1) * (redundancy + 1) + 1 ≤ nx * ny := by
  set Q := (nx * ny - redundancy - 2) / (redundancy + 1) with hQ
  have hps : pagesizeOf NDATA nx ny redundancy = Q * redundancy * NDATA := rfl
  have hcomm1 : Q * redundancy * NDATA = NDATA * (Q * redundancy) := by ring
  -- the number of data blocks is at most Q * redundancy
  have h1 : l + NDATA - 1 ≤ NDATA * (Q * redundancy) + (NDATA - 1) := by
    rw [hps, hcomm1] at hl2; omega
  have h2 : ndataBlocksOf NDATA l ≤ (NDATA * (Q * redundancy) + (NDATA - 1)) / NDATA :=
    Nat.div_le_div_right h1
  have h3 : (NDATA * (Q * redundancy) + (NDATA - 1)) / NDATA = Q * redundancy := by
    rw [Nat.mul_add_div (by omega), Nat.div_eq_of_lt (by omega)]
    omega
  have hcomm2 : Q * redundancy = redundancy * Q := by ring
  have h4 : ndataBlocksOf NDATA l ≤ redundancy * Q := by omega
  -- hence nstring is at most Q
  have h5 : ndataBlocksOf NDATA l + redundancy - 1 ≤
      redundancy * Q + (redundancy - 1) := by omega
  have h6 : nstringOf NDATA redundancy l ≤
      (redundancy * Q + (redundancy - 1)) / redundancy :=
    Nat.div_le_div_right h5
  have h7 : (redundancy * Q + (redundancy - 1)) / redundancy = Q := by
    rw [Nat.mul_add_div (by omega), Nat.div_eq_of_lt (by omega)]
    omega
  have h8 : Q * (redundancy + 1) ≤ nx * ny - redundancy - 2 :=
    Nat.div_mul_le_self _ _
  have h9 : nstringOf NDATA redundancy l ≤ Q := by omega
  have h10 : (nstringOf NDATA redundancy l + 1) * (redundancy + 1) ≤
      (Q + 1) * (redundancy + 1) := Nat.mul_le_mul_right _ (by omega)
  have h11 : (Q + 1) * (redundancy + 1) = Q * (redundancy + 1) + (redundancy + 1) := by
    ring
  omega

theorem blocks_le_cells (nx ny redundancy nstring : ℕ) (hnx : 0 < nx)
    (hn : (nstring + 1) * (redundancy + 1) + 1 ≤ nx * ny) :
    (nstring + 1) * (redundancy + 1) + 1 ≤
      nx * pageNy ny (rowsOf nx redundancy nstring) := by
  unfold pageNy rowsOf
  split
  · -- the page is shrunk to `rows` lines
    have hceil : (nstring + 1) * (redundancy + 1) + 1 ≤
        nx * (((nstring + 1) * (redundancy + 1) + 1 + nx - 1) / nx) := by
      have hdm := Nat.div_add_mod ((nstring + 1) * (redundancy + 1) + 1 + nx - 1) nx
      have hml := Nat.mod_lt ((nstring + 1) * (redundancy + 1) + 1 + nx - 1) hnx
      omega
    have hmax : ((nstring + 1) * (redundancy + 1) + 1 + nx - 1) / nx ≤
        max (((nstring + 1) * (redundancy + 1) + 1 + nx - 1) / nx) 3 :=
      le_max_left _ _
    calc (nstring + 1) * (redundancy + 1) + 1
        ≤ nx * (((nstring + 1) * (redundancy + 1) + 1 + nx - 1) / nx) := hceil
      _ ≤ nx * max (((nstring + 1) * (redundancy + 1) + 1 + nx - 1) / nx) 3 :=
          Nat.mul_le_mul_left _ hmax
  · exact hn

theorem length_flatMap_const {α β : Type} (l : List α) (f : α → List β) (k : ℕ)
    (h : ∀ a ∈ l, (f a).length = k) : (l.flatMap f).length = l.length * k := by
  induction l with
  | nil => simp
  | cons a l ih =>
    simp only [List.flatMap_cons, List.length_append, List.length_cons]
    rw [h a (List.mem_cons_self a l), ih (fun b hb => h b (List.mem_cons_of_mem a hb))]
    ring

theorem pageCells_length (nx ny redundancy nstring : ℕ)
    (hcells : (nstring + 1) * (redundancy + 1) ≤ nx * ny) :
    (pageCells nx ny redundancy nstring).length = nx * ny := by
  unfold pageCells
  rw [List.length_append, List.length_append,
    length_flatMap_const _ _ (redundancy + 1) (by intro a _; simp)]
  simp only [List.length_map, List.length_range, List.length_range']
  have hcm : nstring * (redundancy + 1) + (redundancy + 1) =
      (nstring + 1) * (redundancy + 1) := by ring
  omega

theorem string_cell_hit (nx redundancy nstring j t : ℕ)
    (hnx0 : 0 < nx) (hbr : nx ≤ nstring + 1) (ht : t < nstring + 1) :
    superCell nx redundancy nstring j = j * (nstring + 1) + t ∨
    ∃ i, i < nstring ∧ groupCell nx redundancy nstring j i = j * (nstring + 1) + t := by
  obtain ⟨rot, hrot⟩ : ∃ r, rotOf nx redundancy j (j * (nstring + 1)) = r := ⟨_, rfl⟩
  have hrotlt : rot < nx := by
    rw [← hrot]; unfold rotOf; exact Nat.mod_lt _ hnx0
  have hrotS : rot < nstring + 1 := by omega
  by_cases ht0 : t = rot
  · left
    unfold superCell
    rw [if_pos (by omega), hrot]
    omega
  · right
    have hS : 0 < nstring + 1 := Nat.succ_pos _
    have hmlt : (t + (nstring + 1) - rot) % (nstring + 1) < nstring + 1 :=
      Nat.mod_lt _ hS
    have hne0 : (t + (nstring + 1) - rot) % (nstring + 1) ≠ 0 := by
      intro h0
      have hdvd : (nstring + 1) ∣ t + (nstring + 1) - rot :=
        Nat.dvd_of_mod_eq_zero h0
      have hle : nstring + 1 ≤ t + (nstring + 1) - rot :=
        Nat.le_of_dvd (by omega) hdvd
      have hlt2 : (t + (nstring + 1) - rot) / (nstring + 1) < 2 := by
        rw [Nat.div_lt_iff_lt_mul hS]
        omega
      have hge1 : 1 ≤ (t + (nstring + 1) - rot) / (nstring + 1) :=
        (Nat.one_le_div_iff hS).mpr hle
      have hdm2 := Nat.div_add_mod (t + (nstring + 1) - rot) (nstring + 1)
      have hq1 : (t + (nstring + 1) - rot) / (nstring + 1) = 1 := by omega
      rw [hq1, h0] at hdm2
      omega
    refine ⟨(t + (nstring + 1) - rot) % (nstring + 1) - 1, by omega, ?_⟩
    unfold groupCell
    rw [if_neg (by omega), hrot]
    have hid : ((t + (nstring + 1) - rot) % (nstring + 1) - 1 + 1 + rot) %
        (nstring + 1) = t := by
      have h1 : (t + (nstring + 1) - rot) % (nstring + 1) - 1 + 1 =
          (t + (nstring + 1) - rot) % (nstring + 1) := by omega
      rw [h1, Nat.mod_add_mod]
      have h2 : t + (nstring + 1) - rot + rot = t + (nstring + 1) := by omega
      rw [h2, Nat.add_mod_right]
      exact Nat.mod_eq_of_lt ht
    rw [hid]

theorem pageCells_mem (nx ny redundancy nstring : ℕ) (hnx0 : 0 < nx)
    (hcells : (nstring + 1) * (redundancy + 1) ≤ nx * ny)
    (c : ℕ) (hc : c < nx * ny) :
    c ∈ pageCells nx ny redundancy nstring := by
  unfold pageCells
  by_cases htail : (nstring + 1) * (redundancy + 1) ≤ c
  · -- tail filler cell
    refine List.mem_append_right _ ?_
    refine List.mem_range'_1.mpr ⟨htail, ?_⟩
    omega
  · -- header + data region
    push_neg at htail
    rw [List.append_assoc]
    have hS : 0 < nstring + 1 := Nat.succ_pos _
    have hj : c / (nstring + 1) < redundancy + 1 := by
      rw [Nat.div_lt_iff_lt_mul hS]
      calc c < (nstring + 1) * (redundancy + 1) := htail
        _ = (redundancy + 1) * (nstring + 1) := Nat.mul_comm _ _
    have ht : c % (nstring + 1) < nstring + 1 := Nat.mod_lt _ hS
    have hdm : (nstring + 1) * (c / (nstring + 1)) + c % (nstring + 1) = c :=
      Nat.div_add_mod c (nstring + 1)
    by_cases hbr : nstring + 1 < nx
    · -- no rotation: string j occupies cells j*(nstring+1) .. j*(nstring+1)+nstring
      by_cases ht0 : c % (nstring + 1) = 0
      · refine List.mem_append_left _ ?_
        refine List.mem_map.mpr ⟨c / (nstring + 1), List.mem_range.mpr hj, ?_⟩
        unfold superCell
        rw [if_neg (by omega)]
        have hcm : c / (nstring + 1) * (nstring + 1) =
            (nstring + 1) * (c / (nstring + 1)) := Nat.mul_comm _ _
        omega
      · refine List.mem_append_right _ (List.mem_append_left _ ?_)
        refine List.mem_flatMap.mpr ⟨c % (nstring + 1) - 1, List.mem_range.mpr (by omega), ?_⟩
        by_cases hjr : c / (nstring + 1) < redundancy
        · refine List.mem_append_left _ ?_
          refine List.mem_map.mpr ⟨c / (nstring + 1), List.mem_range.mpr hjr, ?_⟩
          unfold groupCell
          rw [if_pos hbr]
          have hcm : c / (nstring + 1) * (nstring + 1) =
              (nstring + 1) * (c / (nstring + 1)) := Nat.mul_comm _ _
          omega
        · have hjeq : c / (nstring + 1) = redundancy := by omega
          refine List.mem_append_right _ ?_
          rw [List.mem_singleton, parityCell_eq_groupCell]
          unfold groupCell
          rw [if_pos hbr]
          rw [hjeq] at hdm
          have hcm : redundancy * (nstring + 1) =
              (nstring + 1) * redundancy := Nat.mul_comm _ _
          omega
    · -- rotated placement: string j occupies the same cell interval,
      -- entered through the rotation bijection
      push_neg at hbr
      have hcm : c / (nstring + 1) * (nstring + 1) =
          (nstring + 1) * (c / (nstring + 1)) := Nat.mul_comm _ _
      rcases string_cell_hit nx redundancy nstring (c / (nstring + 1))
          (c % (nstring + 1)) hnx0 hbr ht with hsup | ⟨i, hi, hcell⟩
      · refine List.mem_append_left _ ?_
        refine List.mem_map.mpr ⟨c / (nstring + 1), List.mem_range.mpr hj, ?_⟩
        rw [hsup]
        omega
      · refine List.mem_append_right _ (List.mem_append_left _ ?_)
        refine List.mem_flatMap.mpr ⟨i, List.mem_range.mpr hi, ?_⟩
        by_cases hjr : c / (nstring + 1) < redundancy
        · refine List.mem_append_left _ ?_
          refine List.mem_map.mpr ⟨c / (nstring + 1), List.mem_range.mpr hjr, ?_⟩
          rw [hcell]
          omega
        · have hjeq : c / (nstring + 1) = redundancy := by omega
          rw [hjeq] at hcell hdm
          refine List.mem_append_right _ ?_
          rw [List.mem_singleton, parityCell_eq_groupCell, hcell]
          have hcm2 : redundancy * (nstring + 1) = (nstring + 1) * redundancy :=
            Nat.mul_comm _ _
          omega

/-- Every cell of the page grid is drawn exactly once: the list of
cell indices passed to `Drawblock` is a permutation of
`[0, nx*ny)`. -/
theorem pageCells_perm_range (nx ny redundancy nstring : ℕ) (hnx0 : 0 < nx)
    (hcells : (nstring + 1) * (redundancy + 1) ≤ nx * ny) :
    List.Perm (pageCells nx ny redundancy nstring) (List.range (nx * ny)) := by
  have hsub : List.range (nx * ny) ⊆ pageCells nx ny redundancy nstring := by
    intro c hc
    exact pageCells_mem nx ny redundancy nstring hnx0 hcells c (List.mem_range.mp hc)
  have hsp : List.Subperm (List.range (nx * ny)) (pageCells nx ny redundancy nstring) :=
    (List.nodup_range _).subperm hsub
  have hlen : (pageCells nx ny redundancy nstring).length ≤
      (List.range (nx * ny)).length := by
    rw [pageCells_length nx ny redundancy nstring hcells, List.length_range]
  exact (hsp.perm_of_length_le hlen).symm

/-- C2: on every page `Printnextpage` emits (data length `l` with
`1 ≤ l ≤ pagesize`, geometry passing the feasibility check), the cell
indices passed to `Drawblock` — the superblock header copies, all
data blocks, all parity blocks and the tail fillers — form exactly
the set `{0, …, nx*ny' - 1}` where `ny'` is the possibly shrunk
last-page row count: every cell is drawn exactly once. -/
theorem c2_every_cell_drawn_exactly_once (NDATA redundancy nx ny l : ℕ)
    (hN : 1 ≤ NDATA) (hr : 1 ≤ redundancy)
    (hnx : redundancy + 1 ≤ nx) (hny : 3 ≤ ny)
    (hl : 1 ≤ l) (hl2 : l ≤ pagesizeOf NDATA nx ny redundancy) :
    List.Perm
      (pageCells nx (pageNy ny (rowsOf nx redundancy (nstringOf NDATA redundancy l)))
        redundancy (nstringOf NDATA redundancy l))
      (List.range
        (nx * pageNy ny (rowsOf nx redundancy (nstringOf NDATA redundancy l)))) := by
  have hnx0 : 0 < nx := by omega
  have hfeas : 2 * redundancy + 2 ≤ nx * ny := by
    calc 2 * redundancy + 2 ≤ (redundancy + 1) * 3 := by omega
      _ ≤ nx * ny := Nat.mul_le_mul hnx hny
  have hbound := nstring_le_of_le_pagesize NDATA redundancy nx ny l hN hr hl2 hfeas
  have hcells := blocks_le_cells nx ny redundancy (nstringOf NDATA redundancy l) hnx0 hbound
  exact pageCells_perm_range nx _ redundancy _ hnx0 (by omega)

/-- C2 witness: concrete instance with `NDATA = 1`, `redundancy = 1`,
`nx = 2`, `ny = 3`, `l = 1`: the drawn cells are a permutation of
`{0, …, 5}`. -/
theorem c2_every_cell_drawn_exactly_once_witness :
    List.Perm (pageCells 2 (pageNy 3 (rowsOf 2 1 (nstringOf 1 1 1))) 1 (nstringOf 1 1 1))
      (List.range (2 * pageNy 3 (rowsOf 2 1 (nstringOf 1 1 1)))) :=
  c2_every_cell_drawn_exactly_once 1 1 2 3 1 (by decide) (by decide) (by decide)
    (by decide) (by decide) (by decide)

/-- C6: `Initializeprinting` reports `Printable area is too small`
(and stops the job) if and only if the computed cell counts satisfy
`nx < redundancy + 1` or `ny < 3` or `nx*ny < 2*redundancy + 2`; and
whenever it fails this way no bitmap is allocated and no geometry is
stored (so no page can be emitted). -/
theorem c6_feasibility_check (NDATA : ℕ) (c : PrintConfig) (mf : Bool) :
    ((Initializeprinting NDATA c mf).reported = some PBError.tooSmall ↔
      (nxOf c < c.redundancy + 1 ∨ nyOf c < 3 ∨
        nxOf c * nyOf c < 2 * c.redundancy + 2)) ∧
    ((Initializeprinting NDATA c mf).reported = some PBError.tooSmall →
      (Initializeprinting NDATA c mf).stopped = true ∧
      (Initializeprinting NDATA c mf).allocated = false ∧
      (Initializeprinting NDATA c mf).geom = none) := by
  by_cases hfeas : nxOf c < c.redundancy + 1 ∨ nyOf c < 3 ∨
      nxOf c * nyOf c < 2 * c.redundancy + 2
  · simp [Initializeprinting, hfeas]
  · simp only [Initializeprinting, hfeas, if_false]
    split_ifs <;> simp_all

/-- C7: whenever `Initializeprinting` succeeds, the stored per-page
byte capacity equals
`floor((nx*ny - redundancy - 2)/(redundancy + 1)) * redundancy * NDATA`
for the computed cell counts `nx`, `ny`, and the same value is copied
into the superblock's `pagesize` field. -/
theorem c7_pagesize_stored (NDATA : ℕ) (c : PrintConfig) (mf : Bool) (g : Geometry)
    (h : (Initializeprinting NDATA c mf).geom = some g) :
    g.pagesize =
      (g.nx * g.ny - c.redundancy - 2) / (c.redundancy + 1) * c.redundancy * NDATA ∧
    g.superPagesize = g.pagesize ∧ g.nx = nxOf c ∧ g.ny = nyOf c := by
  by_cases hfeas : nxOf c < c.redundancy + 1 ∨ nyOf c < 3 ∨
      nxOf c * nyOf c < 2 * c.redundancy + 2
  · simp [Initializeprinting, hfeas] at h
  · simp only [Initializeprinting, hfeas, if_false] at h
    split_ifs at h <;> simp_all
    subst h
    exact ⟨rfl, rfl, rfl, rfl⟩

/-- C7 witness: the concrete A4 configuration succeeds with
`nx = 13`, `ny = 21` and `pagesize = 135 * 90 = 12150`, copied into
the superblock. -/
theorem c7_pagesize_stored_witness :
    (12150 : ℕ) =
      (13 * 21 - 1 - 2) / (1 + 1) * 1 * 90 ∧
    (12150 : ℕ) = 12150 ∧ (13 : ℕ) = nxOf cfgA4 ∧ (21 : ℕ) = nyOf cfgA4 :=
  c7_pagesize_stored 90 cfgA4 false
    ⟨13, 21, 4, 4, 2, 2, 64, 1952, 3070, 12150, 12150⟩ (by decide)

/-- C9: if the feasibility check passes with `redundancy ≥ 1` and
`NDATA ≥ 1`, then `pagesize ≥ redundancy * NDATA > 0`; consequently
each successful `Printnextpage` call strictly advances the page byte
offset (`p * pagesize < (p+1) * pagesize`), the page count
`(datasize + pagesize - 1) / pagesize` divides by a nonzero number,
and once the page counter reaches that page count the offset is at or
past the end of the buffer, so the emit phase terminates for every
finite input. -/
theorem c9_pagesize_positive_and_emit_terminates (NDATA redundancy nx ny : ℕ)
    (hN : 1 ≤ NDATA) (hr : 1 ≤ redundancy)
    (hnx : redundancy + 1 ≤ nx) (hny : 3 ≤ ny) :
    redundancy * NDATA ≤ pagesizeOf NDATA nx ny redundancy ∧
    0 < pagesizeOf NDATA nx ny redundancy ∧
    (∀ p : ℕ, p * pagesizeOf NDATA nx ny redundancy <
      (p + 1) * pagesizeOf NDATA nx ny redundancy) ∧
    (∀ datasize p : ℕ,
      (datasize + pagesizeOf NDATA nx ny redundancy - 1) /
        pagesizeOf NDATA nx ny redundancy ≤ p →
      datasize ≤ p * pagesizeOf NDATA nx ny redundancy) := by
  have hfeas : 3 * (redundancy + 1) ≤ nx * ny := by
    calc 3 * (redundancy + 1) = (redundancy + 1) * 3 := by ring
      _ ≤ nx * ny := Nat.mul_le_mul hnx hny
  have hQ : 1 ≤ (nx * ny - redundancy - 2) / (redundancy + 1) := by
    rw [Nat.one_le_div_iff (by omega)]
    omega
  have hps : redundancy * NDATA ≤ pagesizeOf NDATA nx ny redundancy := by
    unfold pagesizeOf
    calc redundancy * NDATA = 1 * redundancy * NDATA := by ring
      _ ≤ (nx * ny - redundancy - 2) / (redundancy + 1) * redundancy * NDATA := by
          exact Nat.mul_le_mul_right _ (Nat.mul_le_mul_right _ hQ)
  have hpos : 0 < pagesizeOf NDATA nx ny redundancy := by
    have : 1 ≤ redundancy * NDATA := Nat.mul_le_mul hr hN
    omega
  refine ⟨hps, hpos, ?_, ?_⟩
  · intro p
    have : p * pagesizeOf NDATA nx ny redundancy +
        pagesizeOf NDATA nx ny redundancy =
        (p + 1) * pagesizeOf NDATA nx ny redundancy := by ring
    omega
  · intro datasize p hp
    by_contra hlt
    push_neg at hlt
    have h1 : (p + 1) * pagesizeOf NDATA nx ny redundancy ≤
        datasize + pagesizeOf NDATA nx ny redundancy - 1 := by
      have : p * pagesizeOf NDATA nx ny redundancy +
          pagesizeOf NDATA nx ny redundancy =
          (p + 1) * pagesizeOf NDATA nx ny redundancy := by ring
      omega
    have h2 : p + 1 ≤ (datasize + pagesizeOf NDATA nx ny redundancy - 1) /
        pagesizeOf NDATA nx ny redundancy := by
      rw [Nat.le_div_iff_mul_le hpos]
      exact h1
    omega

/-- C9 witness: concrete instance at `NDATA = 90`, `redundancy = 1`,
`nx = 2`, `ny = 3`, extracting the capacity bounds. -/
theorem c9_pagesize_positive_and_emit_terminates_witness :
    1 * 90 ≤ pagesizeOf 90 2 3 1 ∧ 0 < pagesizeOf 90 2 3 1 :=
  (fun h => ⟨h.1, h.2.1⟩)
    (c9_pagesize_positive_and_emit_terminates 90 1 2 3
      (by decide) (by decide) (by decide) (by decide))

/-- C8: for every block stamped by `Drawblock`, the finished record
carries at byte offsets `NDATA+4` (low) and `NDATA+5` (high) — the
`crc` field, little-endian — exactly
`CRC16(first NDATA+4 bytes) XOR 0x55AA` (reduced to 16 bits by the
`ushort` cast), for any external CRC-16 routine and any external
byte encoder. -/
theorem c8_crc_xor_masked_little_endian (NDATA : ℕ) (crc16 : List ℕ → ℕ)
    (encode8 : List ℕ → List ℕ) (rec : List ℕ) (hlen : NDATA + 6 ≤ rec.length) :
    (finishRecord NDATA crc16 encode8 rec).getD (NDATA + 4) 0 =
      (crc16 (rec.take (NDATA + 4)) ^^^ 0x55AA) % 65536 % 256 ∧
    (finishRecord NDATA crc16 encode8 rec).getD (NDATA + 5) 0 =
      (crc16 (rec.take (NDATA + 4)) ^^^ 0x55AA) % 65536 / 256 ∧
    (crc16 (rec.take (NDATA + 4)) ^^^ 0x55AA) % 65536 % 256 +
      256 * ((crc16 (rec.take (NDATA + 4)) ^^^ 0x55AA) % 65536 / 256) =
      (crc16 (rec.take (NDATA + 4)) ^^^ 0x55AA) % 65536 := by
  have hcrc : recordWithCrc NDATA crc16 rec =
      (rec.set (NDATA + 4) ((crc16 (rec.take (NDATA + 4)) ^^^ 0x55AA) % 65536 % 256)).set
        (NDATA + 5) ((crc16 (rec.take (NDATA + 4)) ^^^ 0x55AA) % 65536 / 256) := rfl
  have hlen1 : (recordWithCrc NDATA crc16 rec).length = rec.length := by
    rw [hcrc, List.length_set, List.length_set]
  have hlo : NDATA + 4 < rec.length := by omega
  have hhiset : NDATA + 5 <
      (rec.set (NDATA + 4)
        ((crc16 (rec.take (NDATA + 4)) ^^^ 0x55AA) % 65536 % 256)).length := by
    rw [List.length_set]; omega
  have hget4 : (recordWithCrc NDATA crc16 rec)[NDATA + 4]? =
      some ((crc16 (rec.take (NDATA + 4)) ^^^ 0x55AA) % 65536 % 256) := by
    rw [hcrc, List.getElem?_set_ne (by omega), List.getElem?_set_eq_of_lt _ hlo]
  have hget5 : (recordWithCrc NDATA crc16 rec)[NDATA + 5]? =
      some ((crc16 (rec.take (NDATA + 4)) ^^^ 0x55AA) % 65536 / 256) := by
    rw [hcrc, List.getElem?_set_eq_of_lt _ hhiset]
  have htake4 : (finishRecord NDATA crc16 encode8 rec)[NDATA + 4]? =
      (recordWithCrc NDATA crc16 rec)[NDATA + 4]? := by
    unfold finishRecord recordWithEcc
    rw [List.getElem?_append_left
      (by rw [List.length_take, hlen1]; omega)]
    rw [List.getElem?_take]
    rw [if_pos (by omega)]
  have htake5 : (finishRecord NDATA crc16 encode8 rec)[NDATA + 5]? =
      (recordWithCrc NDATA crc16 rec)[NDATA + 5]? := by
    unfold finishRecord recordWithEcc
    rw [List.getElem?_append_left
      (by rw [List.length_take, hlen1]; omega)]
    rw [List.getElem?_take]
    rw [if_pos (by omega)]
  refine ⟨?_, ?_, ?_⟩
  · rw [List.getD_eq_getElem?_getD, htake4, hget4]
    rfl
  · rw [List.getD_eq_getElem?_getD, htake5, hget5]
    rfl
  · omega

/-- C8 witness: concrete instance with `NDATA = 90`, a 128-byte
all-zero record, `crc16` returning the length of its input (94) and a
trivial encoder: the stored bytes are `0xF4` and `0x55`, the
little-endian halves of `94 XOR 0x55AA = 0x55F4`. -/
theorem c8_crc_xor_masked_little_endian_witness :
    (finishRecord 90 (fun l => l.length) (fun _ => []) (List.replicate 128 0)).getD 94 0 =
      ((fun (l : List ℕ) => l.length) ((List.replicate 128 (0 : ℕ)).take 94) ^^^ 0x55AA)
        % 65536 % 256 ∧
    (finishRecord 90 (fun l => l.length) (fun _ => []) (List.replicate 128 0)).getD 95 0 =
      ((fun (l : List ℕ) => l.length) ((List.replicate 128 (0 : ℕ)).take 94) ^^^ 0x55AA)
        % 65536 / 256 ∧
    ((fun (l : List ℕ) => l.length) ((List.replicate 128 (0 : ℕ)).take 94) ^^^ 0x55AA)
        % 65536 % 256 +
      256 * (((fun (l : List ℕ) => l.length) ((List.replicate 128 (0 : ℕ)).take 94) ^^^ 0x55AA)
        % 65536 / 256) =
      ((fun (l : List ℕ) => l.length) ((List.replicate 128 (0 : ℕ)).take 94) ^^^ 0x55AA)
        % 65536 :=
  c8_crc_xor_masked_little_endian 90 (fun l => l.length) (fun _ => [])
    (List.replicate 128 0) (by simp)

set_option maxHeartbeats 1000000 in
/-- C10: for every cell index in `[0, nx*ny)` and the bitmap geometry
of `Initializeprinting` (width from `bitmapWidth`, height from
`bitmapHeight` — the same formula used for the shrunk last-page `ny`),
every flat byte offset `Drawblock` writes lies inside the
`width * height` bitmap buffer, even though `Drawblock` itself does no
bounds checking. -/
theorem c10_drawblock_writes_in_bounds (index nx ny border dx dy px py : ℕ)
    (word : ℕ → ℕ) (hidx : index < nx * ny) :
    ∀ a ∈ drawblockAddrs index nx (bitmapWidth nx dx px border)
        (bitmapHeight ny dy py border) border dx dy px py word,
      0 ≤ a ∧
      a < (bitmapWidth nx dx px border : ℤ) * (bitmapHeight ny dy py border : ℤ) := by
  intro a ha
  simp only [drawblockAddrs] at ha
  rw [List.mem_flatMap] at ha
  obtain ⟨j, hj, ha⟩ := ha
  rw [List.mem_range] at hj
  rw [List.mem_flatMap] at ha
  obtain ⟨i, hi, ha⟩ := ha
  rw [List.mem_range] at hi
  rw [List.mem_ite_nil_right] at ha
  obtain ⟨-, ha⟩ := ha
  rw [List.mem_flatMap] at ha
  obtain ⟨m, hm, ha⟩ := ha
  rw [List.mem_range] at hm
  rw [List.mem_map] at ha
  obtain ⟨n, hn, haeq⟩ := ha
  rw [List.mem_range] at hn
  have hnx0 : 0 < nx := by
    rcases Nat.eq_zero_or_pos nx with h | h
    · subst h; simp at hidx
    · exact h
  have hcx : index % nx < nx := Nat.mod_lt index hnx0
  have hcy : index / nx < ny := by
    rw [Nat.div_lt_iff_lt_mul hnx0]
    calc index < nx * ny := hidx
      _ = ny * nx := Nat.mul_comm _ _
  set W : ℕ := bitmapWidth nx dx px border with hWdef
  set H : ℕ := bitmapHeight ny dy py border with hHdef
  have hWn : nx * (NDOT + 3) * dx + px + 2 * border ≤ W := by
    rw [hWdef]; unfold bitmapWidth; omega
  have hHn : H = ny * (NDOT + 3) * dy + py + 2 * border := rfl
  generalize hcxeq : index % nx = cx at haeq hcx
  generalize hcyeq : index / nx = cy at haeq hcy
  have hXlt : ((cx * (NDOT + 3) * dx + 2 * dx + border : ℕ) : ℤ) +
      (i : ℤ) * dx + n < (W : ℤ) := by
    have h1 : (cx : ℤ) * ((NDOT + 3) * dx) ≤
        ((nx : ℤ) - 1) * ((NDOT + 3) * dx) := by
      apply mul_le_mul_of_nonneg_right _ (by positivity)
      omega
    have h2 : (i : ℤ) * dx ≤ 31 * dx := by
      apply mul_le_mul_of_nonneg_right _ (by positivity)
      omega
    have h3 : ((nx : ℤ) * (NDOT + 3) * dx + px + 2 * border) ≤ (W : ℤ) := by
      exact_mod_cast hWn
    have h4 : (n : ℤ) < (px : ℤ) := by exact_mod_cast hn
    have h5 : (NDOT : ℤ) = 32 := by norm_num [NDOT]
    have h6 : (0 : ℤ) ≤ (dx : ℤ) := by positivity
    have h7 : (0 : ℤ) ≤ (border : ℤ) := by positivity
    push_cast
    nlinarith [h1, h2, h3, h4, h5, h6, h7]
  have hYle : ((cy * (NDOT + 3) * dy + 2 * dy + border : ℕ) : ℤ) +
      (j : ℤ) * dy + m ≤ (H : ℤ) - 1 := by
    have h1 : (cy : ℤ) * ((NDOT + 3) * dy) ≤
        ((ny : ℤ) - 1) * ((NDOT + 3) * dy) := by
      apply mul_le_mul_of_nonneg_right _ (by positivity)
      omega
    have h2 : (j : ℤ) * dy ≤ 31 * dy := by
      apply mul_le_mul_of_nonneg_right _ (by positivity)
      omega
    have h3 : (H : ℤ) = (ny : ℤ) * (NDOT + 3) * dy + py + 2 * border := by
      rw [hHn]; push_cast; ring
    have h5 : (NDOT : ℤ) = 32 := by norm_num [NDOT]
    have h6 : (0 : ℤ) ≤ (dy : ℤ) := by positivity
    have h7 : (0 : ℤ) ≤ (border : ℤ) := by positivity
    have h8 : (m : ℤ) < (py : ℤ) := by exact_mod_cast hm
    push_cast
    nlinarith [h1, h2, h3, h5, h6, h7, h8]
  have hkey : a = ((H : ℤ) - 1 -
        (((cy * (NDOT + 3) * dy + 2 * dy + border : ℕ) : ℤ) + (j : ℤ) * dy + m)) * W +
      (((cx * (NDOT + 3) * dx + 2 * dx + border : ℕ) : ℤ) + (i : ℤ) * dx + n) := by
    rw [← haeq]; ring
  have hX0 : (0 : ℤ) ≤
      ((cx * (NDOT + 3) * dx + 2 * dx + border : ℕ) : ℤ) + (i : ℤ) * dx + n := by
    positivity
  have hY0 : (0 : ℤ) ≤
      ((cy * (NDOT + 3) * dy + 2 * dy + border : ℕ) : ℤ) + (j : ℤ) * dy + m := by
    positivity
  have hW0 : (0 : ℤ) ≤ (W : ℤ) := by positivity
  constructor
  · rw [hkey]
    have hnn : (0 : ℤ) ≤ ((H : ℤ) - 1 -
        (((cy * (NDOT + 3) * dy + 2 * dy + border : ℕ) : ℤ) + (j : ℤ) * dy + m)) * W :=
      mul_nonneg (by omega) hW0
    omega
  · rw [hkey]
    have hfac : ((H : ℤ) - 1 -
        (((cy * (NDOT + 3) * dy + 2 * dy + border : ℕ) : ℤ) + (j : ℤ) * dy + m)) * W ≤
        ((H : ℤ) - 1) * W := mul_le_mul_of_nonneg_right (by omega) hW0
    have hexp : ((H : ℤ) - 1) * W + W = (W : ℤ) * H := by ring
    omega

/-- C10 witness: a specific write of the concrete instance `index = 0`,
`nx = 2`, `ny = 3`, `dx = dy = 2`, `px = py = 1`, `border = 0`, record
all zero (so the mask sets every other bit): the first painted pixel is
at flat offset `29668`, inside the `144 × 211` bitmap. -/
theorem c10_drawblock_writes_in_bounds_witness :
    (0 : ℤ) ≤ 29668 ∧
    (29668 : ℤ) < (bitmapWidth 2 2 1 0 : ℤ) * (bitmapHeight 3 2 1 0 : ℤ) :=
  c10_drawblock_writes_in_bounds 0 2 3 0 2 2 1 1 (fun _ => 0) (by decide)
    29668 (by decide)

/-- C4 (code bug, evaluation at the failing input): with a 4-byte
`name` field at offset 2 of an 8-byte record fragment (all bytes
initially 1) and the five-byte file name `ABCDE`, the fill of
initPrinting.c lines 29-31 stores `name[dataSize] = 0` one byte PAST
the `name` region — the adjacent binary byte at index 6 is clobbered
to 0 — and no null terminator lies inside the `name` region itself
(bytes 2..5 are `65 66 67 68`).  This contradicts the code's own
comment (`ensure that later string operations don't overflow into
binary data`): the intended store is `name[dataSize-1] = 0`. -/
theorem c4_name_fill_writes_past_field :
    fillName 2 4 [1, 1, 1, 1, 1, 1, 1, 1] [65, 66, 67, 68, 69] =
      [1, 1, 65, 66, 67, 68, 0, 1] ∧
    (fillName 2 4 [1, 1, 1, 1, 1, 1, 1, 1] [65, 66, 67, 68, 69]).getD 6 0 = 0 ∧
    (fillName 2 4 [1, 1, 1, 1, 1, 1, 1, 1] [65, 66, 67, 68, 69]).getD 2 0 ≠ 0 ∧
    (fillName 2 4 [1, 1, 1, 1, 1, 1, 1, 1] [65, 66, 67, 68, 69]).getD 3 0 ≠ 0 ∧
    (fillName 2 4 [1, 1, 1, 1, 1, 1, 1, 1] [65, 66, 67, 68, 69]).getD 4 0 ≠ 0 ∧
    (fillName 2 4 [1, 1, 1, 1, 1, 1, 1, 1] [65, 66, 67, 68, 69]).getD 5 0 ≠ 0 := by
  decide

/-- C5 (code bug, evaluation at the failing inputs).  First conjunct:
when the `fwrite` of the BITMAPFILEHEADER returns a short count
(`headerWriteOk = false`), `Printnextpage` reports nothing, does not
stop the job, never closes the file, and advances `frompage` as if
the page had succeeded — because the `success == 0` check of
printNextPage.c lines 207-211 is nested inside the `if (success)`
block of line 187 and is unreachable for this failure.  Second
conjunct: when `malloc` fails (initPrinting.c lines 122-125) the
`Low memory` error is reported but `Stopprinting` is not called, so
the job is not transitioned to a terminal state.  The remaining error
paths do report and stop. -/
theorem c5_error_paths_not_all_terminal :
    printnextpageSave ⟨true, false, true, true⟩ =
      ⟨none, false, false, true⟩ ∧
    ((Initializeprinting 90 cfgA4 true).reported = some PBError.lowMemory ∧
      (Initializeprinting 90 cfgA4 true).stopped = false) ∧
    (printnextpageSave ⟨false, true, true, true⟩).reported = some PBError.cantCreateFile ∧
    (printnextpageSave ⟨false, true, true, true⟩).stopped = true ∧
    (printnextpageSave ⟨true, true, false, true⟩).reported = some PBError.cantSaveBitmap ∧
    (printnextpageSave ⟨true, true, false, true⟩).stopped = true ∧
    (printnextpageSave ⟨true, true, true, false⟩).reported = some PBError.cantSaveBitmap ∧
    (printnextpageSave ⟨true, true, true, false⟩).stopped = true := by
  decide

end Paperback
